import Mathlib

/-!
Shallow embedding of the SportsClips highlight pipeline.

The numeric code of the repository works on Python/NumPy floats; here every
float is modelled as an exact rational (`ℚ`).  NumPy float division by zero
does not raise: it produces NaN (for 0/0) or ±inf, i.e. an undefined score.
We model the value of a float division as `Option ℚ`, with `none` standing
for the undefined (NaN/±inf) outcome when the divisor is zero.
-/

namespace SportsClips

/-! ## analyzeAudio.py — AudioExcitementDetector -/

/-- NumPy float division: `none` models the NaN/±inf result of dividing by
zero, `some (a / b)` the ordinary quotient. -/
def float_div (a b : ℚ) : Option ℚ :=
  if b = 0 then none else some (a / b)

/-- `np.min(array)` for a nonempty list (NumPy raises on an empty array;
for an empty list this returns the default 0, a case the detector never
hits). -/
def np_min (xs : List ℚ) : ℚ := xs.foldl min (xs.headD 0)

/-- `np.max(array)` for a nonempty list. -/
def np_max (xs : List ℚ) : ℚ := xs.foldl max (xs.headD 0)

/-- `AudioExcitementDetector._normalize`:
`return (array - min_val) / (max_val - min_val)` — elementwise, with the
NumPy semantics of division by zero (each element becomes NaN when
`max_val == min_val`). -/
def _normalize (array : List ℚ) : List (Option ℚ) :=
  let min_val := np_min array
  let max_val := np_max array
  array.map fun x => float_div (x - min_val) (max_val - min_val)

/-- One step of the scan in `AudioExcitementDetector._find_excitement_segments`:
state is `(segments so far, start_time)`, input is one `(time, score)` pair. -/
def segStep (threshold min_duration : ℚ) (st : List (ℚ × ℚ) × Option ℚ)
    (p : ℚ × ℚ) : List (ℚ × ℚ) × Option ℚ :=
  if p.2 > threshold then
    match st.2 with
    | none => (st.1, some p.1)
    | some s => (st.1, some s)
  else
    match st.2 with
    | none => (st.1, none)
    | some s =>
      (if p.1 - s ≥ min_duration then st.1 ++ [(s, p.1)] else st.1, none)

/-- `AudioExcitementDetector._find_excitement_segments`: scan the
`(time, score)` pairs once; a run above `threshold` opens at its first
window's time and closes at the first window at/below threshold, kept iff
its span is at least `min_duration`; a run still open at the end closes at
the final timestamp (`times[-1]`) under the same rule. -/
def _find_excitement_segments (threshold min_duration : ℚ)
    (pairs : List (ℚ × ℚ)) : List (ℚ × ℚ) :=
  let res := pairs.foldl (segStep threshold min_duration) ([], none)
  match res.2 with
  | none => res.1
  | some s =>
    match pairs.getLast? with
    | none => res.1
    | some lp =>
      if lp.1 - s ≥ min_duration then res.1 ++ [(s, lp.1)] else res.1

/-! ## analyzeAudio.py — merge_close_segments -/

/-- One iteration of the loop in `merge_close_segments`: state is
`(committed earlier segments, last accepted segment)`. -/
def mergeStep (gap_threshold : ℚ) (st : List (ℚ × ℚ) × (ℚ × ℚ))
    (seg : ℚ × ℚ) : List (ℚ × ℚ) × (ℚ × ℚ) :=
  if seg.1 - st.2.2 ≤ gap_threshold then
    (st.1, (st.2.1, max st.2.2 seg.2))
  else
    (st.1 ++ [st.2], seg)

/-- `merge_close_segments(segments, gap_threshold)`: single forward pass;
the last accepted segment is extended when the next candidate starts within
`gap_threshold` of its end, otherwise a new accepted segment starts. -/
def merge_close_segments (segments : List (ℚ × ℚ)) (gap_threshold : ℚ) :
    List (ℚ × ℚ) :=
  match segments with
  | [] => []
  | s :: rest =>
    let res := rest.foldl (mergeStep gap_threshold) ([], s)
    res.1 ++ [res.2]

/-! ## analyzeAudio.py — extract_highlight_clips -/

/-- `buffered_start = max(0, start - 2)`. -/
def buffered_start (start : ℚ) : ℚ := max 0 (start - 2)

/-- `buffered_end = end + 2` (no upper clamp). -/
def buffered_end (end_ : ℚ) : ℚ := end_ + 2

/-- The clip file name `highlight_{i}.mp4`. -/
def highlight_file_name (i : ℕ) : String :=
  "highlight_" ++ toString i ++ ".mp4"

/-- One metadata record appended by `extract_highlight_clips`. -/
structure ClipMeta where
  start_time : ℚ
  end_time : ℚ
  highlight_file : String
deriving DecidableEq, Repr

/-- Environment abstracting the two ffmpeg subprocess invocations of
`extract_highlight_clips` for clip index `i`: whether each pass exits with
code 0, and whether a partially-written temp file exists when the first
pass fails. -/
structure ClipEnv where
  phase1 : ℕ → Bool
  phase2 : ℕ → Bool
  tempAfterFail : ℕ → Bool

/-- `if os.path.exists(temp_file): os.remove(temp_file)` — the temp file's
existence after the cleanup. -/
def cleanup_temp (tempExists : Bool) : Bool :=
  if tempExists then false else tempExists

/-- `extract_highlight_clips(video_file, segments, output_dir)` with clip
indices enumerated from `i` (the source starts at 1).  Returns the metadata
list and the list of clip indices whose temp file is left on disk after the
per-segment cleanup. -/
def extract_highlight_clips (env : ClipEnv) :
    ℕ → List (ℚ × ℚ) → List ClipMeta × List ℕ
  | _, [] => ([], [])
  | i, (s, e) :: rest =>
    let bs := buffered_start s
    let be := buffered_end e
    let _duration := be - bs
    if env.phase1 i then
      -- first pass succeeded: the temp file exists
      if env.phase2 i then
        -- success path: temp removed, metadata record appended
        let r := extract_highlight_clips env (i + 1) rest
        (⟨s, e, highlight_file_name i⟩ :: r.1,
         (if cleanup_temp true then [i] else []) ++ r.2)
      else
        -- second pass raised CalledProcessError: temp removed, continue
        let r := extract_highlight_clips env (i + 1) rest
        (r.1, (if cleanup_temp true then [i] else []) ++ r.2)
    else
      -- first pass raised CalledProcessError: temp removed if present
      let r := extract_highlight_clips env (i + 1) rest
      (r.1, (if cleanup_temp (env.tempAfterFail i) then [i] else []) ++ r.2)

/-! ## highlightsInspector.py — HighlightInspector -/

/-- The three category probabilities handled by
`HighlightInspector.parse_model_response` (dict insertion order:
`short_clip`, `long_clip`, `unimportant`). -/
structure CatProbs where
  short_clip : ℚ
  long_clip : ℚ
  unimportant : ℚ
deriving DecidableEq, Repr

/-- Sum of the dict values, `sum(probabilities.values())`. -/
def probs_total (p : CatProbs) : ℚ :=
  p.short_clip + p.long_clip + p.unimportant

/-- The re-normalization step of `parse_model_response`: if the total
deviates from 1.0 by more than 0.1, divide each value by the total when it
is positive, otherwise default entirely to `unimportant`. -/
def normalize_probs (p : CatProbs) : CatProbs :=
  if |probs_total p - 1| > 1/10 then
    if probs_total p > 0 then
      ⟨p.short_clip / probs_total p, p.long_clip / probs_total p,
        p.unimportant / probs_total p⟩
    else ⟨0, 0, 1⟩
  else p

/-- `max(probabilities.values())`. -/
def max_prob (p : CatProbs) : ℚ :=
  max p.short_clip (max p.long_clip p.unimportant)

/-- `max(probabilities.items(), key=lambda x: x[1])[0]`: the first category
(in dict order `short_clip`, `long_clip`, `unimportant`) attaining the
maximal value. -/
def max_category (p : CatProbs) : String :=
  if p.short_clip ≥ p.long_clip ∧ p.short_clip ≥ p.unimportant then
    "short_clip"
  else if p.long_clip ≥ p.unimportant then "long_clip"
  else "unimportant"

/-- `sorted(probabilities.values())[-2]`: the second-largest of the three
values, i.e. the middle value of the three. -/
def second_highest (p : CatProbs) : ℚ :=
  max (min (max p.short_clip p.long_clip) p.unimportant)
    (min p.short_clip p.long_clip)

/-- The strict classification rules of `parse_model_response`: the leading
category must meet an absolute floor and lead the runner-up by a margin
(`short_clip`: ≥ 0.6 and margin ≥ 0.2; `long_clip`: ≥ 0.5 and margin
≥ 0.15), otherwise `unimportant`. -/
def classify_probs (p : CatProbs) : String :=
  if max_category p = "short_clip" then
    if max_prob p ≥ 6/10 ∧ max_prob p - second_highest p ≥ 2/10 then
      "short_clip"
    else "unimportant"
  else if max_category p = "long_clip" then
    if max_prob p ≥ 5/10 ∧ max_prob p - second_highest p ≥ 3/20 then
      "long_clip"
    else "unimportant"
  else "unimportant"

/-- `HighlightInspector.parse_model_response`, from the parsed probability
triple onwards (the line-by-line extraction of the triple from the raw text
is abstracted away): returns `(prediction, probabilities)`. -/
def parse_model_response (p : CatProbs) : String × CatProbs :=
  (classify_probs (normalize_probs p), normalize_probs p)

/-- The observable part of the dict returned by
`HighlightInspector.analyze_frame` (`analysis_details`, `raw_response` and
`error_message` are abstracted away). -/
structure FrameResult where
  highlight_type : String
  probabilities : CatProbs
  status : String
deriving DecidableEq, Repr

/-- `HighlightInspector.error_response(error_type, message)`. -/
def error_response (error_type : String) : FrameResult :=
  ⟨"error", ⟨0, 0, 0⟩, error_type⟩

/-- Outcome of one attempt of `analyze_frame`:
`transport` models a `requests.exceptions.RequestException` or `ValueError`
(empty response / invalid JSON), `fatal` any other exception, and `ok p`
a response whose text parses to the probability triple `p`. -/
inductive AttemptOutcome where
  | transport
  | fatal
  | ok (p : CatProbs)
deriving DecidableEq

/-- `HighlightInspector.analyze_frame` over the list of per-attempt
outcomes (one entry per iteration of `for attempt in range(max_retries)`,
so the list has `max_retries` entries); `attempt` is the 0-based loop
index.  Returns the result (`none` models Python's implicit `None` when
the loop runs zero times) together with the list of `time.sleep` waits in
seconds, `(2 ** attempt) * 2` after each non-final transport failure. -/
def analyze_frame : List AttemptOutcome → ℕ → Option FrameResult × List ℕ
  | [], _ => (none, [])
  | o :: rest, attempt =>
    match o with
    | .ok p =>
      (some ⟨(parse_model_response p).1, (parse_model_response p).2,
        "success"⟩, [])
    | .fatal => (some (error_response "error"), [])
    | .transport =>
      if rest.isEmpty then
        (some (error_response "max_retries_exceeded"), [])
      else
        let r := analyze_frame rest (attempt + 1)
        (r.1, (2 ^ attempt * 2) :: r.2)

/-! ## highlightStitcher.py -/

/-- One entry of the `sequences` list consumed by `get_highlight_files`. -/
structure SequenceEntry where
  highlight_probability : ℚ
  highlight_num : ℕ
deriving DecidableEq, Repr

/-- `get_highlight_files(sequences, highlights_dir)`: keep, in input order,
the clips with probability ≥ 0.5 whose file exists; a selected clip with a
missing file is only warned about and skipped. -/
def get_highlight_files (sequences : List SequenceEntry)
    (file_exists : String → Bool) : List String :=
  sequences.foldl
    (fun acc sq =>
      if sq.highlight_probability ≥ 1/2 then
        if file_exists (highlight_file_name sq.highlight_num) then
          acc ++ [highlight_file_name sq.highlight_num]
        else acc
      else acc)
    []

/-- `stitch_highlights(highlight_files, output_file)`: with no input files
it prints and returns producing no output; otherwise it concatenates into
`output_file`.  The produced output file is modelled as an `Option`. -/
def stitch_highlights (highlight_files : List String)
    (output_file : String) : Option String :=
  if highlight_files.isEmpty then none else some output_file

/-! ## Helper lemmas -/

/-- Folding `mergeStep` only ever appends to the committed prefix, so a
nonempty initial prefix factors out. -/
lemma foldl_mergeStep_append (gap : ℚ) (l : List (ℚ × ℚ)) :
    ∀ done last, l.foldl (mergeStep gap) (done, last) =
      (done ++ (l.foldl (mergeStep gap) ([], last)).1,
       (l.foldl (mergeStep gap) ([], last)).2) := by
  induction l with
  | nil => simp
  | cons b rest ih =>
    intro done last
    simp only [List.foldl_cons, mergeStep]
    by_cases h : b.1 - last.2 ≤ gap
    · simp only [if_pos h]
      exact ih done (last.1, max last.2 b.2)
    · simp only [if_neg h]
      rw [ih (done ++ [last]) b, ih ([] ++ [last]) b]
      simp

/-- `merge_close_segments` satisfies the recursive one-pass equation. -/
lemma merge_cons_cons (gap : ℚ) (a b : ℚ × ℚ) (rest : List (ℚ × ℚ)) :
    merge_close_segments (a :: b :: rest) gap =
      if b.1 - a.2 ≤ gap then
        merge_close_segments ((a.1, max a.2 b.2) :: rest) gap
      else a :: merge_close_segments (b :: rest) gap := by
  simp only [merge_close_segments, List.foldl_cons, mergeStep]
  by_cases h : b.1 - a.2 ≤ gap
  · simp only [if_pos h]
  · simp only [if_neg h]
    rw [foldl_mergeStep_append gap rest ([] ++ [a]) b]
    simp

/-- The first accepted segment of a merge keeps the start of the first
input segment. -/
lemma merge_head_start (l : List (ℚ × ℚ)) :
    ∀ s gap, ∃ e tl,
      merge_close_segments (s :: l) gap = (s.1, e) :: tl := by
  induction l with
  | nil =>
    intro s gap
    exact ⟨s.2, [], rfl⟩
  | cons b rest ih =>
    intro s gap
    rw [merge_cons_cons]
    by_cases h : b.1 - s.2 ≤ gap
    · rw [if_pos h]
      exact ih (s.1, max s.2 b.2) gap
    · rw [if_neg h]
      exact ⟨s.2, merge_close_segments (b :: rest) gap, rfl⟩

/-- Scanning below-threshold windows with no open run changes nothing. -/
lemma foldl_segStep_below (thr mind : ℚ) :
    ∀ l : List (ℚ × ℚ), (∀ p ∈ l, ¬ p.2 > thr) → ∀ segs : List (ℚ × ℚ),
      l.foldl (segStep thr mind) (segs, none) = (segs, none) := by
  intro l
  induction l with
  | nil => intro _ segs; rfl
  | cons p rest ih =>
    intro h segs
    simp only [List.foldl_cons, segStep, if_neg (h p (List.mem_cons_self p rest))]
    exact ih (fun q hq => h q (List.mem_cons_of_mem p hq)) segs

/-- Scanning above-threshold windows with an open run keeps it open with
the same start. -/
lemma foldl_segStep_above (thr mind : ℚ) :
    ∀ l : List (ℚ × ℚ), (∀ p ∈ l, p.2 > thr) → ∀ segs s,
      l.foldl (segStep thr mind) (segs, some s) = (segs, some s) := by
  intro l
  induction l with
  | nil => intro _ segs s; rfl
  | cons p rest ih =>
    intro h segs s
    simp only [List.foldl_cons, segStep, if_pos (h p (List.mem_cons_self p rest))]
    exact ih (fun q hq => h q (List.mem_cons_of_mem p hq)) segs s

/-- The `short_clip` outcome of the strict classification, characterized. -/
lemma classify_eq_short (q : CatProbs) :
    classify_probs q = "short_clip" ↔
      max_category q = "short_clip" ∧ max_prob q ≥ 6/10 ∧
        max_prob q - second_highest q ≥ 2/10 := by
  unfold classify_probs
  split_ifs with h1 h2 h3 h4 <;> simp_all

/-- The `long_clip` outcome of the strict classification, characterized. -/
lemma classify_eq_long (q : CatProbs) :
    classify_probs q = "long_clip" ↔
      max_category q = "long_clip" ∧ max_prob q ≥ 5/10 ∧
        max_prob q - second_highest q ≥ 3/20 := by
  unfold classify_probs
  split_ifs with h1 h2 h3 h4 <;> simp_all

/-- The classification only ever produces the three category labels. -/
lemma classify_total (q : CatProbs) :
    classify_probs q = "short_clip" ∨ classify_probs q = "long_clip" ∨
      classify_probs q = "unimportant" := by
  unfold classify_probs
  split_ifs <;> simp

/-- `cleanup_temp` always removes the temp file. -/
lemma cleanup_temp_false (b : Bool) : cleanup_temp b = false := by
  cases b <;> rfl

/-- The selection fold of `get_highlight_files`, generalized over the
accumulator. -/
lemma get_highlight_files_go (ex : String → Bool) :
    ∀ sequences : List SequenceEntry, ∀ acc : List String,
      sequences.foldl
        (fun acc sq =>
          if sq.highlight_probability ≥ 1/2 then
            if ex (highlight_file_name sq.highlight_num) then
              acc ++ [highlight_file_name sq.highlight_num]
            else acc
          else acc)
        acc =
      acc ++ (sequences.filter fun sq =>
          decide (sq.highlight_probability ≥ 1/2) &&
            ex (highlight_file_name sq.highlight_num)).map
        fun sq => highlight_file_name sq.highlight_num := by
  intro sequences
  induction sequences with
  | nil => intro acc; simp
  | cons sq rest ih =>
    intro acc
    simp only [List.foldl_cons, List.filter_cons]
    by_cases h1 : sq.highlight_probability ≥ 1/2
    · by_cases h2 : ex (highlight_file_name sq.highlight_num)
      · rw [if_pos h1, if_pos h2, ih]
        have hc : (2⁻¹ : ℚ) ≤ sq.highlight_probability := by simpa using h1
        simp [h2, hc]
      · rw [if_pos h1, if_neg h2, ih]
        simp [h1, h2]
    · rw [if_neg h1, ih]
      have hc : ¬ (2⁻¹ : ℚ) ≤ sq.highlight_probability := by simpa using h1
      simp [hc]

/-- `get_highlight_files` is the in-order filter of the sequences by
probability ≥ 0.5 and file existence, mapped to the clip file names. -/
lemma get_highlight_files_eq (sequences : List SequenceEntry)
    (ex : String → Bool) :
    get_highlight_files sequences ex =
      (sequences.filter fun sq =>
          decide (sq.highlight_probability ≥ 1/2) &&
            ex (highlight_file_name sq.highlight_num)).map
        fun sq => highlight_file_name sq.highlight_num := by
  unfold get_highlight_files
  rw [get_highlight_files_go]
  simp

/-! ## Claim theorems -/

/-- C1: the per-run min-max normalization of
`AudioExcitementDetector._normalize` divides by zero on a constant signal:
for the constant signal `[1, 1, 1]` (max == min) every element of the
result is undefined (NaN), not the constant 0 (or 0.5) the specification
requires. -/
theorem normalize_constant_signal_undefined :
    _normalize [1, 1, 1] = [none, none, none] ∧
    ¬ _normalize [1, 1, 1] = [some 0, some 0, some 0] ∧
    ¬ _normalize [1, 1, 1] = [some (1/2), some (1/2), some (1/2)] := by
  refine ⟨?_, ?_, ?_⟩ <;> norm_num [_normalize, np_min, np_max, float_div] <;>
    simp

/-- C2 counterexample: after three consecutive transport failures,
`analyze_frame` returns a result whose `status` field is
`"max_retries_exceeded"`, not `"error"` as the claim states. -/
theorem analyze_frame_final_status_ne_error :
    (analyze_frame [.transport, .transport, .transport] 0).1.map
        FrameResult.status ≠ some "error" := by
  norm_num [analyze_frame, error_response]
  decide

/-- C2 (amended): three consecutive transport failures exhaust the 3
attempts, with backoff waits of `(2 ** attempt) * 2` seconds after each
non-final attempt (2 s, then 4 s, i.e. `2^attempt` with attempts numbered
from 1), and the final result is returned (not raised), error-tagged with
`highlight_type = "error"`, `status = "max_retries_exceeded"` and
probability 0.0 for every category. -/
theorem analyze_frame_retry_exhaustion :
    analyze_frame [.transport, .transport, .transport] 0 =
      (some (error_response "max_retries_exceeded"), [2, 4]) ∧
    error_response "max_retries_exceeded" =
      ⟨"error", ⟨0, 0, 0⟩, "max_retries_exceeded"⟩ := by
  refine ⟨?_, rfl⟩
  norm_num [analyze_frame, error_response]

/-- C6: `merge_close_segments` is a single forward pass maintaining the
last accepted segment — it satisfies the one-pass recursion (extend the
last accepted segment to `max(last.end, next.end)` when
`next.start - last.end ≤ gap_threshold`, otherwise commit it and start a
new one) — and `[(0,2),(3,5)]` merges to `[(0,5)]` at gap threshold 4.0
but stays `[(0,2),(3,5)]` at gap threshold 0.5. -/
theorem merge_close_segments_forward_pass :
    (∀ gap : ℚ, merge_close_segments [] gap = []) ∧
    (∀ gap : ℚ, ∀ s : ℚ × ℚ, merge_close_segments [s] gap = [s]) ∧
    (∀ gap : ℚ, ∀ a b : ℚ × ℚ, ∀ rest : List (ℚ × ℚ),
      merge_close_segments (a :: b :: rest) gap =
        if b.1 - a.2 ≤ gap then
          merge_close_segments ((a.1, max a.2 b.2) :: rest) gap
        else a :: merge_close_segments (b :: rest) gap) ∧
    merge_close_segments [(0, 2), (3, 5)] 4 = [(0, 5)] ∧
    merge_close_segments [(0, 2), (3, 5)] (1/2) = [(0, 2), (3, 5)] := by
  refine ⟨fun gap => rfl, fun gap s => rfl,
    fun gap a b rest => merge_cons_cons gap a b rest, ?_, ?_⟩ <;>
    norm_num [merge_close_segments, mergeStep]

/-- C10: in the output of `merge_close_segments`, any two consecutive
segments are separated by strictly more than the gap threshold. -/
theorem merged_segments_gap_invariant (segments : List (ℚ × ℚ)) (gap : ℚ) :
    List.Chain' (fun p q => q.1 - p.2 > gap)
      (merge_close_segments segments gap) := by
  match segments with
  | [] => simp [merge_close_segments]
  | s :: rest =>
    induction rest generalizing s with
    | nil => simp [merge_close_segments]
    | cons b tl ih =>
      rw [merge_cons_cons]
      by_cases h : b.1 - s.2 ≤ gap
      · rw [if_pos h]
        exact ih (s.1, max s.2 b.2)
      · rw [if_neg h]
        rw [List.chain'_cons']
        refine ⟨?_, ih b⟩
        intro y hy
        obtain ⟨e, tl', heq⟩ := merge_head_start tl b gap
        rw [heq] at hy
        simp only [List.head?_cons, Option.mem_def, Option.some.injEq] at hy
        subst hy
        simpa using not_le.mp h

/-- C9: clip buffering in `extract_highlight_clips` computes
`buffered_start = max(0, start - 2)` (never below 0, for any start) and
`buffered_end = end + 2` with no upper clamp. -/
theorem buffered_clip_bounds :
    (∀ start : ℚ, buffered_start start = max 0 (start - 2)) ∧
    (∀ start : ℚ, 0 ≤ buffered_start start) ∧
    (∀ end_ : ℚ, buffered_end end_ = end_ + 2) ∧
    buffered_start (-5) = 0 ∧ buffered_end 10 = 12 := by
  refine ⟨fun start => rfl, fun start => le_max_left 0 _,
    fun end_ => rfl, ?_, ?_⟩ <;> norm_num [buffered_start, buffered_end]

/-- C3: the final category decision of `parse_model_response` follows the
margin rule, not plain argmax: the leading category must meet the absolute
floor AND lead the runner-up by the margin (`short_clip`: ≥ 0.6 and margin
≥ 0.2; `long_clip`: ≥ 0.5 and margin ≥ 0.15), anything else is
`unimportant`; in particular `{short_clip: 0.55, long_clip: 0.05,
unimportant: 0.40}` classifies as `unimportant` although `short_clip` is
the argmax. -/
theorem margin_rule_classification :
    (∀ p : CatProbs,
      ((parse_model_response p).1 = "short_clip" ↔
        max_category (normalize_probs p) = "short_clip" ∧
        max_prob (normalize_probs p) ≥ 6/10 ∧
        max_prob (normalize_probs p) -
            second_highest (normalize_probs p) ≥ 2/10) ∧
      ((parse_model_response p).1 = "long_clip" ↔
        max_category (normalize_probs p) = "long_clip" ∧
        max_prob (normalize_probs p) ≥ 5/10 ∧
        max_prob (normalize_probs p) -
            second_highest (normalize_probs p) ≥ 3/20) ∧
      ((parse_model_response p).1 = "short_clip" ∨
        (parse_model_response p).1 = "long_clip" ∨
        (parse_model_response p).1 = "unimportant")) ∧
    (parse_model_response ⟨55/100, 5/100, 40/100⟩).1 = "unimportant" ∧
    max_category (normalize_probs ⟨55/100, 5/100, 40/100⟩) = "short_clip" := by
  refine ⟨fun p => ⟨classify_eq_short (normalize_probs p),
    classify_eq_long (normalize_probs p),
    classify_total (normalize_probs p)⟩, ?_, ?_⟩ <;>
    norm_num [parse_model_response, classify_probs, normalize_probs,
      probs_total, max_prob, max_category, second_highest]

/-- C4: `parse_model_response` re-normalizes nonnegative parsed
probability triples whose sum deviates from 1.0 by more than 0.1 by
proportional rescaling to sum 1.0; an all-zero triple defaults entirely to
`unimportant`; a sum within 0.1 of 1.0 leaves the triple unchanged. -/
theorem probability_renormalization (p : CatProbs)
    (hs : 0 ≤ p.short_clip) (hl : 0 ≤ p.long_clip)
    (hu : 0 ≤ p.unimportant) :
    (|probs_total p - 1| > 1/10 →
      ¬ (p.short_clip = 0 ∧ p.long_clip = 0 ∧ p.unimportant = 0) →
      normalize_probs p =
        ⟨p.short_clip / probs_total p, p.long_clip / probs_total p,
          p.unimportant / probs_total p⟩ ∧
      probs_total (normalize_probs p) = 1) ∧
    (p.short_clip = 0 ∧ p.long_clip = 0 ∧ p.unimportant = 0 →
      normalize_probs p = ⟨0, 0, 1⟩) ∧
    (|probs_total p - 1| ≤ 1/10 → normalize_probs p = p) := by
  refine ⟨fun hdev hnz => ?_, fun hz => ?_, fun hdev => ?_⟩
  · have ht0 : 0 ≤ probs_total p := by
      unfold probs_total; positivity
    have ht : 0 < probs_total p := by
      rcases ht0.lt_or_eq with h | h
      · exact h
      · exfalso
        apply hnz
        unfold probs_total at h
        refine ⟨by linarith, by linarith, by linarith⟩
    rw [normalize_probs, if_pos hdev, if_pos ht]
    refine ⟨rfl, ?_⟩
    show p.short_clip / probs_total p + p.long_clip / probs_total p +
      p.unimportant / probs_total p = 1
    rw [div_add_div_same, div_add_div_same]
    exact div_self (ne_of_gt ht)
  · rw [normalize_probs, probs_total, hz.1, hz.2.1, hz.2.2]
    norm_num
  · rw [normalize_probs, if_neg (not_lt.mpr hdev)]

/-- C4 witness: the triple `(0.2, 0.2, 0.2)` sums to 0.6, deviating from
1.0 by more than 0.1, and is rescaled to `(1/3, 1/3, 1/3)`. -/
theorem probability_renormalization_witness :
    normalize_probs ⟨1/5, 1/5, 1/5⟩ = ⟨1/3, 1/3, 1/3⟩ ∧
    probs_total (normalize_probs ⟨1/5, 1/5, 1/5⟩) = 1 := by
  have h := (probability_renormalization ⟨1/5, 1/5, 1/5⟩ (by norm_num)
    (by norm_num) (by norm_num)).1 (by norm_num [probs_total, lt_abs])
    (by norm_num)
  refine ⟨?_, h.2⟩
  rw [h.1]
  norm_num [probs_total, CatProbs.mk.injEq]

/-- C5: in `_find_excitement_segments`, a run of consecutive windows above
threshold becomes a candidate segment iff the span from its first window to
the window that closes it is at least `min_excitement_duration`; a run
still open at the end of the series closes at the final timestamp under the
same rule; a run spanning exactly 1.5 s is retained and one spanning 1.49 s
is discarded. -/
theorem excitement_run_duration_rule :
    (∀ thr mind : ℚ, ∀ pre run post : List (ℚ × ℚ), ∀ r c : ℚ × ℚ,
      (∀ p ∈ pre, ¬ p.2 > thr) → r.2 > thr → (∀ p ∈ run, p.2 > thr) →
      ¬ c.2 > thr → (∀ p ∈ post, ¬ p.2 > thr) →
      _find_excitement_segments thr mind (pre ++ (r :: run) ++ c :: post) =
        if c.1 - r.1 ≥ mind then [(r.1, c.1)] else []) ∧
    (∀ thr mind : ℚ, ∀ pre run : List (ℚ × ℚ), ∀ r lp : ℚ × ℚ,
      (∀ p ∈ pre, ¬ p.2 > thr) → r.2 > thr → (∀ p ∈ run, p.2 > thr) →
      (r :: run).getLast? = some lp →
      _find_excitement_segments thr mind (pre ++ (r :: run)) =
        if lp.1 - r.1 ≥ mind then [(r.1, lp.1)] else []) ∧
    _find_excitement_segments (1/2) (3/2) [(0, 3/5), (3/2, 3/10)] =
      [(0, 3/2)] ∧
    _find_excitement_segments (1/2) (3/2) [(0, 3/5), (149/100, 3/10)] =
      [] ∧
    _find_excitement_segments (1/2) (3/2) [(0, 3/5), (8/5, 7/10)] =
      [(0, 8/5)] := by
  refine ⟨?_, ?_, ?_, ?_, ?_⟩
  · intro thr mind pre run post r c hpre hr hrun hc hpost
    have hopen : List.foldl (segStep thr mind) ([], none) (r :: run) =
        ([], some r.1) := by
      rw [List.foldl_cons]
      have hstep : segStep thr mind ([], none) r = ([], some r.1) := by
        simp [segStep, hr]
      rw [hstep]
      exact foldl_segStep_above thr mind run hrun [] r.1
    have hclose : segStep thr mind ([], some r.1) c =
        (if c.1 - r.1 ≥ mind then [(r.1, c.1)] else [], none) := by
      simp [segStep, hc]
    have h1 : List.foldl (segStep thr mind) ([], none)
        (pre ++ r :: run ++ c :: post) =
        (if c.1 - r.1 ≥ mind then [(r.1, c.1)] else [], none) := by
      rw [List.foldl_append, List.foldl_append,
        foldl_segStep_below thr mind pre hpre, hopen, List.foldl_cons,
        hclose]
      exact foldl_segStep_below thr mind post hpost _
    unfold _find_excitement_segments
    rw [h1]
  · intro thr mind pre run r lp hpre hr hrun hlast
    have hopen : List.foldl (segStep thr mind) ([], none)
        (pre ++ r :: run) = ([], some r.1) := by
      rw [List.foldl_append, foldl_segStep_below thr mind pre hpre,
        List.foldl_cons]
      have hstep : segStep thr mind ([], none) r = ([], some r.1) := by
        simp [segStep, hr]
      rw [hstep]
      exact foldl_segStep_above thr mind run hrun [] r.1
    unfold _find_excitement_segments
    rw [hopen, List.getLast?_append, hlast]
    simp
  all_goals norm_num [_find_excitement_segments, segStep]

/-- C5 witness: a single run opening at time 0 and closed by the window at
time 1.5 spans exactly 1.5 s and is retained. -/
theorem excitement_run_duration_rule_witness :
    _find_excitement_segments (1/2) (3/2) [(0, 3/5), (3/2, 3/10)] =
      [(0, 3/2)] := by
  have h := excitement_run_duration_rule.1 (1/2) (3/2) [] [] []
    (0, 3/5) (3/2, 3/10) (by simp) (by norm_num) (by simp)
    (by norm_num) (by simp)
  norm_num at h
  exact h

/-- C7: in `extract_highlight_clips` a failure of either ffmpeg pass is
non-fatal: no temp file is ever left behind, a failed segment contributes
no metadata record and processing continues with the next segment, and a
successful segment contributes exactly its record. -/
theorem extract_clip_failure_isolation :
    (∀ env : ClipEnv, ∀ i : ℕ, ∀ segs : List (ℚ × ℚ),
      (extract_highlight_clips env i segs).2 = []) ∧
    (∀ env : ClipEnv, ∀ i : ℕ, ∀ s e : ℚ, ∀ rest : List (ℚ × ℚ),
      ¬ (env.phase1 i = true ∧ env.phase2 i = true) →
      extract_highlight_clips env i ((s, e) :: rest) =
        extract_highlight_clips env (i + 1) rest) ∧
    (∀ env : ClipEnv, ∀ i : ℕ, ∀ s e : ℚ, ∀ rest : List (ℚ × ℚ),
      env.phase1 i = true → env.phase2 i = true →
      extract_highlight_clips env i ((s, e) :: rest) =
        (⟨s, e, highlight_file_name i⟩ ::
            (extract_highlight_clips env (i + 1) rest).1,
          (extract_highlight_clips env (i + 1) rest).2)) := by
  refine ⟨?_, ?_, ?_⟩
  · intro env i segs
    induction segs generalizing i with
    | nil => rfl
    | cons se rest ih =>
      obtain ⟨s, e⟩ := se
      simp only [extract_highlight_clips]
      by_cases h1 : env.phase1 i <;> by_cases h2 : env.phase2 i <;>
        simp [h1, h2, cleanup_temp_false, ih]
  · intro env i s e rest h
    simp only [extract_highlight_clips]
    by_cases h1 : env.phase1 i <;> by_cases h2 : env.phase2 i <;>
      simp_all [cleanup_temp_false]
  · intro env i s e rest h1 h2
    simp only [extract_highlight_clips]
    simp [h1, h2, cleanup_temp_false]

/-- C7 witness: with the first ffmpeg pass failing on clip 1, the segment
is skipped (no metadata) and no temp file remains. -/
theorem extract_clip_failure_isolation_witness :
    extract_highlight_clips ⟨fun _ => false, fun _ => true, fun _ => true⟩
        1 [(3, 4)] =
      extract_highlight_clips ⟨fun _ => false, fun _ => true, fun _ => true⟩
        2 [] ∧
    (extract_highlight_clips ⟨fun _ => false, fun _ => true, fun _ => true⟩
        1 [(3, 4)]).2 = [] := by
  refine ⟨extract_clip_failure_isolation.2.1
    ⟨fun _ => false, fun _ => true, fun _ => true⟩ 1 3 4 [] (by simp),
    extract_clip_failure_isolation.1
    ⟨fun _ => false, fun _ => true, fun _ => true⟩ 1 [(3, 4)]⟩

/-- C8: `get_highlight_files` keeps exactly the clips with probability
≥ 0.5 whose file exists, in input (ascending clip-index) order —
probabilities `[0.9, 0.4, 0.6]` at indices `[1, 2, 3]` yield
`[highlight_1, highlight_3]`, a missing file is skipped rather than fatal —
and `stitch_highlights` on an empty selection produces no output file and
returns without error. -/
theorem highlight_selection_and_stitch :
    (∀ sequences : List SequenceEntry, ∀ ex : String → Bool,
      get_highlight_files sequences ex =
        (sequences.filter fun sq =>
            decide (sq.highlight_probability ≥ 1/2) &&
              ex (highlight_file_name sq.highlight_num)).map
          fun sq => highlight_file_name sq.highlight_num) ∧
    get_highlight_files [⟨9/10, 1⟩, ⟨4/10, 2⟩, ⟨6/10, 3⟩] (fun _ => true) =
      [highlight_file_name 1, highlight_file_name 3] ∧
    get_highlight_files [⟨9/10, 1⟩, ⟨4/10, 2⟩, ⟨6/10, 3⟩]
        (fun f => !(f == highlight_file_name 1)) =
      [highlight_file_name 3] ∧
    (∀ output_file : String, stitch_highlights [] output_file = none) := by
  refine ⟨get_highlight_files_eq, ?_, ?_, fun _ => rfl⟩ <;>
    norm_num [get_highlight_files, highlight_file_name]
  decide

end SportsClips
